import Mathlib

/-!
Verification of `lsst-dm/legacy-daf_fmt_mysql` (python).

Shallow embedding of the catalog-to-SQL translation and batched-ingestion
engine from `python/lsst/daf/fmt/mysql/afwTableSqlFormatter.py` and the
storage layer from `python/lsst/daf/fmt/mysql/mysqlStorage.py`.

Conventions of the embedding:
* Python strings are Lean `String`s.  The sources manipulate them only by
  concatenation, length, prefix tests, single-character membership,
  single-character-pattern replacement and per-character maps, all of
  which are embedded as the corresponding operations on the character
  list `String.data` (so that every definition reduces in the kernel).
  On the ASCII data handled here byte length and character length agree.
* Python `None` is `Option.none`; a Python function that raises is
  embedded with an explicit error component in its result.
* IEEE floats are embedded as a tagged type `FloatV` carrying either an
  exact rational (the exact value of the machine float) or a non-finite
  marker; the source only classifies floats (`math.isnan`/`math.isinf`)
  and renders finite ones with a `{:.Ng}` format, both faithfully
  expressible over that type.
-/

namespace DafFmtMysql

/-! ### String primitives of the embedding -/

/-- Python `sep.join(xs)` (used with `","` in `_do_ingest`). -/
def strIntercalate (sep : String) : List String → String
  | [] => ""
  | [s] => s
  | s :: rest => s ++ sep ++ strIntercalate sep rest

/-- Concatenation of a list of strings (the accumulated `sql += value`
of `_do_ingest`, viewed as a whole). -/
def strJoin : List String → String
  | [] => ""
  | s :: rest => s ++ strJoin rest

/-- Python `str.replace(c, r)` for a single-character pattern `c` (the
only form the source uses: backtick doubling and backslash/quote
escaping). -/
def replaceChar (c : Char) (r : String) (s : String) : String :=
  ⟨(s.data.map (fun x => if x = c then r.data else [x])).flatten⟩

/-- Python `c in s` for a single character. -/
def strContains (s : String) (c : Char) : Bool :=
  s.data.contains c

/-- Python `s.startswith(pre)`. -/
def strStarts (s pre : String) : Bool :=
  pre.data.isPrefixOf s.data

/-- Python 2 `str.lower` (ASCII-only lower-casing). -/
def lowerStr (s : String) : String :=
  ⟨s.data.map Char.toLower⟩

/-- First `n` characters of `s` (Python `s[:n]`). -/
def takeStr (s : String) (n : Nat) : String :=
  ⟨s.data.take n⟩

/-- All but the first `n` characters of `s` (Python `s[n:]`). -/
def dropStr (s : String) (n : Nat) : String :=
  ⟨s.data.drop n⟩

/-- All but the last character of `s` (Python `s[:-1]`, used by
`_do_ingest` to strip the trailing comma). -/
def dropLastStr (s : String) : String :=
  ⟨s.data.dropLast⟩

/-! ### Identifier layer -/

/-- The character class `\w` of Python 2 `re` on a plain `str` (no
`re.UNICODE`): ASCII `[a-zA-Z0-9_]`. -/
def isWordChar (c : Char) : Bool :=
  c.isAlpha || c.isDigit || c = '_'

/-- `canonicalize_field_name` embeds
`re.sub(r"[^\w]", "_", field_name)` (afwTableSqlFormatter.py:168-174).
The regex class matches one character at a time, so the substitution is
a per-character map replacing each non-word character with `_`. -/
def canonicalize_field_name (s : String) : String :=
  ⟨s.data.map (fun c => if isWordChar c then c else '_')⟩

/-- `quote_mysql_identifier` embeds afwTableSqlFormatter.py:177-183:
back-tick quoting with embedded back-ticks doubled; it never raises. -/
def quote_mysql_identifier (identifier : String) : String :=
  "`" ++ replaceChar '`' "``" identifier ++ "`"

/-- `MySqlStorage.identifierQuote` embeds mysqlStorage.py:75-92: raise
`RuntimeError` when the field contains a back-tick, otherwise wrap the
field in back-ticks (no escaping). -/
def identifierQuote (field : String) : Except String String :=
  if strContains field '`' then
    .error "Illegal ` character in field."
  else
    .ok ("`" ++ field ++ "`")

/-- `_testSqlIsClean` (afwTableSqlFormatter.py:669-694 and
mysqlStorage.py:420-445): raise iff the string contains `;`. -/
def testSqlIsClean (sql : String) : Except String Unit :=
  if strContains sql ';' then .error "Illegal SQL." else .ok ()

/-! ### Collision check of `_create_table`
afwTableSqlFormatter.py:587-601 groups the (surviving) schema field
names by `name.lower()` — the raw names, NOT their canonicalized
forms — and raises iff some group has more than one element. -/

/-- The lower-case keys under which `_create_table`'s
`equivalence_classes` dict (afwTableSqlFormatter.py:589-593) files more
than one field name. -/
def clash_keys (names : List String) : List String :=
  ((names.map lowerStr).dedup).filter
    (fun k => 1 < (names.filter (fun n => lowerStr n = k)).length)

/-- `_create_table` raises its "Schema contains columns that differ only
by non-word characters and/or case" error iff this is `true`
(afwTableSqlFormatter.py:592-601); only when it is `false` is the
`CREATE TABLE` DDL statement built and executed. -/
def create_table_raises (names : List String) : Bool :=
  !(clash_keys names).isEmpty

/-! ### Numeric rendering
`_format_number(format_string, number)` (afwTableSqlFormatter.py:47-59)
returns `"NULL"` for NaN/Inf and otherwise applies a Python
`{:.Ng}` format.  The call sites use the literal format strings
`"{:.9g}"` (float, line 148) and `"{:.17g}"` (double, line 150; angle,
line 154), so the embedding carries the precision `N` directly.
`gRender N q` is the exact-rational version of CPython's `{:.Ng}`
general format: round the value to `N` significant decimal digits
(round-half-even), then use fixed notation when the decimal exponent
`e` satisfies `-4 ≤ e < N` (stripping trailing fractional zeros) and
scientific notation `d.ddde±XX` otherwise.  For a value that is exactly
representable as a machine float this agrees with CPython's output,
since CPython also rounds the float's exact rational value. -/

/-- Number of decimal digits of `n` (`fuel`-driven; call with
`fuel ≥ n`). -/
def digCount (fuel n : Nat) : Nat :=
  match fuel with
  | 0 => 1
  | f + 1 => if n < 10 then 1 else digCount f (n / 10) + 1

/-- Decide `10 ^ e ≤ n / d` over the rationals (for `n`, `d` ≥ 1). -/
def pow10LE (e : Int) (n d : Nat) : Bool :=
  if 0 ≤ e then d * 10 ^ e.toNat ≤ n else d ≤ n * 10 ^ (-e).toNat

/-- The decimal exponent of `n / d` (for `n`, `d` ≥ 1): the unique `e`
with `10 ^ e ≤ n / d < 10 ^ (e + 1)`. -/
def qExp (n d : Nat) : Int :=
  let e0 : Int := (digCount n n : Int) - (digCount d d : Int)
  if pow10LE e0 n d then e0 else e0 - 1

/-- Round `n / d` to the nearest integer, ties to even. -/
def roundHalfEven (n d : Nat) : Nat :=
  let q := n / d
  let r := n % d
  if 2 * r < d then q
  else if d < 2 * r then q + 1
  else if q % 2 = 0 then q else q + 1

/-- Strip trailing `'0'` characters (the `g` format strips trailing
zeros of the fractional part). -/
def stripZeros (s : String) : String :=
  ⟨(s.data.reverse.dropWhile (fun c => c = '0')).reverse⟩

/-- Exact-rational `{:.pg}` rendering (see the section comment). -/
def gRender (p : Nat) (q : ℚ) : String :=
  if q = 0 then "0"
  else
    let sgn := if q < 0 then "-" else ""
    let n := q.num.natAbs
    let d := q.den
    let e1 := qExp n d
    let s : Int := (p : Int) - 1 - e1
    let scaledN := if 0 ≤ s then n * 10 ^ s.toNat else n
    let scaledD := if 0 ≤ s then d else d * 10 ^ (-s).toNat
    let m0 := roundHalfEven scaledN scaledD
    let m := if m0 = 10 ^ p then 10 ^ (p - 1) else m0
    let e := if m0 = 10 ^ p then e1 + 1 else e1
    let ds := toString m
    if -4 ≤ e ∧ e < (p : Int) then
      if 0 ≤ e then
        let ip := takeStr ds (e.toNat + 1)
        let fp := stripZeros (dropStr ds (e.toNat + 1))
        if fp.data.isEmpty then sgn ++ ip else sgn ++ ip ++ "." ++ fp
      else
        let zeros : String := ⟨List.replicate ((-e).toNat - 1) '0'⟩
        sgn ++ "0." ++ stripZeros (zeros ++ ds)
    else
      let rest := stripZeros (dropStr ds 1)
      let mant := if rest.data.isEmpty then takeStr ds 1
                  else takeStr ds 1 ++ "." ++ rest
      let esign := if 0 ≤ e then "+" else "-"
      let eabs := (if 0 ≤ e then e else -e).toNat
      let estr := if eabs < 10 then "0" ++ toString eabs else toString eabs
      sgn ++ mant ++ "e" ++ esign ++ estr

/-- A machine float: the exact rational value of a finite float, or a
non-finite marker. -/
inductive FloatV
  | finite (q : ℚ)
  | nan
  | inf
  | neginf
deriving DecidableEq

/-- `math.isnan(v) or math.isinf(v)` (the guard of `_format_number`). -/
def isNanOrInf : FloatV → Bool
  | .finite _ => false
  | _ => true

/-- `_format_number` (afwTableSqlFormatter.py:47-59) with the precision
of the `{:.Ng}` format string passed at the call site. -/
def format_number (p : Nat) (v : FloatV) : String :=
  match v with
  | .finite q => gRender p q
  | _ => "NULL"

/-- `_format_string` (afwTableSqlFormatter.py:62-68): quote, escaping
embedded backslashes and single quotes with a backslash. -/
def format_string (s : String) : String :=
  "'" ++ replaceChar '\'' "\\'" (replaceChar '\\' "\\\\" s) ++ "'"

/-- One byte as two lower-case hex digits (Python 2 `hex_codec`). -/
def byteHex (b : Nat) : String :=
  let dig := fun (x : Nat) =>
    if x < 10 then Char.ofNat ('0'.toNat + x) else Char.ofNat ('a'.toNat + (x - 10))
  ⟨[dig (b / 16 % 16), dig (b % 16)]⟩

/-- A machine value of `width` bytes in little-endian byte order,
rendered as hex digits (the per-element piece of `struct.pack("<…")`
followed by `hex_codec`). -/
def leBytesHex (width x : Nat) : String :=
  strJoin ((List.range width).map (fun j => byteHex (x / 256 ^ j % 256)))

/-- `_format_array` (afwTableSqlFormatter.py:71-91) applied to elements
already reduced to their `width`-byte machine patterns: pack
little-endian, hex-encode, wrap as a MySQL hex literal. -/
def format_array (width : Nat) (pats : List Nat) : String :=
  "x'" ++ strJoin (pats.map (leBytesHex width)) ++ "'"

/-- Two's-complement `w`-bit pattern of a Python int (the effect of
`struct.pack` on a signed element). -/
def twosComp (w : Nat) (x : Int) : Nat :=
  (x % ((2 : Int) ^ w)).toNat

/-! ### The formatter registry `field_formatters`
(afwTableSqlFormatter.py:134-165).  Dynamic (duck-typed) field values
are embedded as the tagged union `FieldVal`; float-array elements are
carried as their IEEE bit patterns, because `struct.pack("<f"/"<d")`
writes exactly those bytes and the source never inspects them further.
Applying a formatter to a value of the wrong dynamic tag is a
Python-level type error; the embedding maps it to `""`, which nothing
here exercises. -/

inductive FieldVal
  | intV (n : Int)
  | floatV (v : FloatV)
  | flagV (b : Bool)
  | angleV (deg : FloatV)
  | strV (s : String)
  | arrUV (xs : List Nat)
  | arrIV (xs : List Int)
  | arrFV (pats : List Nat)
  | arrDV (pats : List Nat)
deriving DecidableEq

/-- The keys of the `field_formatters` dict (`Str` stands for the
source's key `"String"`). -/
inductive FieldType
  | U | I | L | F | D | Flag | Angle | Str
  | ArrayU | ArrayI | ArrayF | ArrayD
deriving DecidableEq

/-- A `FieldFormatter`'s `format_value_callable`
(afwTableSqlFormatter.py:26-29; the SQL-type callable is not needed by
any claim). -/
structure FieldFormatterE where
  formatVal : FieldVal → String

/-- `FieldFormatter.format_value` (afwTableSqlFormatter.py:35-44):
`None` is always converted to `"NULL"` before the per-type callable
runs. -/
def format_value (f : FieldFormatterE) (v : Option FieldVal) : String :=
  match v with
  | none => "NULL"
  | some x => f.formatVal x

/-- The `field_formatters` dict (afwTableSqlFormatter.py:140-165),
format-value side.  `Angle` values arrive as their `asDegrees()`
float. -/
def field_formatters : FieldType → FieldFormatterE
  | .U => ⟨fun v => match v with | .intV n => toString n | _ => ""⟩
  | .I => ⟨fun v => match v with | .intV n => toString n | _ => ""⟩
  | .L => ⟨fun v => match v with | .intV n => toString n | _ => ""⟩
  | .F => ⟨fun v => match v with | .floatV x => format_number 9 x | _ => ""⟩
  | .D => ⟨fun v => match v with | .floatV x => format_number 17 x | _ => ""⟩
  | .Flag => ⟨fun v => match v with | .flagV b => if b then "1" else "0" | _ => ""⟩
  | .Angle => ⟨fun v => match v with | .angleV x => format_number 17 x | _ => ""⟩
  | .Str => ⟨fun v => match v with | .strV s => format_string s | _ => ""⟩
  | .ArrayU => ⟨fun v => match v with | .arrUV xs => format_array 2 xs | _ => ""⟩
  | .ArrayI => ⟨fun v => match v with
      | .arrIV xs => format_array 4 (xs.map (twosComp 32)) | _ => ""⟩
  | .ArrayF => ⟨fun v => match v with | .arrFV ps => format_array 4 ps | _ => ""⟩
  | .ArrayD => ⟨fun v => match v with | .arrDV ps => format_array 8 ps | _ => ""⟩

/-- Count of significant decimal digits displayed by a rendered numeric
literal: digits of the mantissa (the part before any exponent marker)
after skipping leading zeros.  This is a spec-side measuring stick used
to compare the renderer against the spec's "7 / 17 significant digits"
wording; it is not part of the source. -/
def specSigDigits (s : String) : Nat :=
  (((s.data.takeWhile (fun c => c ≠ 'e')).filter Char.isDigit).dropWhile
    (fun c => c = '0')).length

/-! ### Alias resolver `aliases_for` (afwTableSqlFormatter.py:186-238)
Python sets are embedded as duplicate-free lists built by
first-insertion-order `setAdd`; only membership is meaningful. -/

/-- Insert into a Python-set-as-list. -/
def setAdd (l : List String) (x : String) : List String :=
  if l.contains x then l else l ++ [x]

/-- The validity scan over `mappings[i + 1:]`
(afwTableSqlFormatter.py:227-233): the candidate alias is rejected iff
some later rule whose source extends `src` is a prefix of the
candidate; the scan stops at the first later source that does not
extend `src`. -/
def validCandidate (src cand : String) : List (String × String) → Bool
  | [] => true
  | (s, _) :: tl =>
    if !(strStarts s src) then true
    else if strStarts cand s then false
    else validCandidate src cand tl

/-- One pass of the inner `for i, (source, target) in enumerate(mappings)`
loop (afwTableSqlFormatter.py:221-236) for a single frontier `name`:
every valid reverse substitution of a rule target-prefix by its
source. -/
def candidatesFrom (name : String) : List (String × String) → List String
  | [] => []
  | (src, tgt) :: rest =>
    let tl := candidatesFrom name rest
    if strStarts name tgt then
      let cand := src ++ dropStr name tgt.length
      if validCandidate src cand rest then cand :: tl else tl
    else tl

/-- One round of reverse alias substitution over the whole frontier. -/
def aliasRound (mappings : List (String × String)) : List String → List String
  | [] => []
  | n :: rest => candidatesFrom n mappings ++ aliasRound mappings rest

/-- The `while n < len(mappings) and len(names) > 0` loop
(afwTableSqlFormatter.py:216-237): `fuel` counts the remaining rounds,
`names` is the frontier, `acc` the accumulated alias set. -/
def aliasLoop (mappings : List (String × String)) :
    Nat → List String → List String → List String
  | 0, _, acc => acc
  | f + 1, names, acc =>
    if names.isEmpty then acc
    else
      let newNames := (aliasRound mappings names).foldl setAdd []
      aliasLoop mappings f newNames (newNames.foldl setAdd acc)

/-- `aliases_for(name, mappings)` (afwTableSqlFormatter.py:186-238). -/
def aliases_for (name : String) (mappings : List (String × String)) :
    List String :=
  aliasLoop mappings mappings.length [name] []

/-! ### Batch ingestion engine `_do_ingest`
(afwTableSqlFormatter.py:528-564). -/

/-- The SQL statement stem built at afwTableSqlFormatter.py:535-543:
`INSERT`/`REPLACE` ` INTO table (columns) VALUES `. -/
def sqlStem (allowReplace : Bool) (tableName : String)
    (columnNames : List String) : String :=
  (if allowReplace then "REPLACE" else "INSERT") ++ " INTO " ++ tableName ++
    " (" ++ strIntercalate "," columnNames ++ ") VALUES "

/-- One row's literal encoding, separator included
(afwTableSqlFormatter.py:551-553): `(` v₁`,`…`,`vₙ `),`. -/
def encodeRow (fmts : List FieldFormatterE) (row : List (Option FieldVal)) :
    String :=
  "(" ++ strIntercalate "," (List.zipWith format_value fmts row) ++ "),"

/-- The inner `while pos < len(cat)` loop of `_do_ingest`
(afwTableSqlFormatter.py:549-559): subtract each row literal's length
from the running budget, stop (without taking the row) as soon as the
budget goes negative, otherwise append the literal and advance.
Returns the accumulated statement and the unconsumed rows. -/
def fillStmt : Int → String → List String → String × List String
  | _, sql, [] => (sql, [])
  | m, sql, v :: rest =>
    if m - (v.length : Int) < 0 then (sql, v :: rest)
    else fillStmt (m - (v.length : Int)) (sql ++ v) rest

/-- The outer `while pos < len(cat)` loop of `_do_ingest`
(afwTableSqlFormatter.py:544-563).  Result: the list of executed
statements (each with its trailing comma stripped, line 563), and
whether the `"Single row is too large to insert"` `RuntimeError` was
raised (line 560-562; statements executed before the raise are kept).
`fuel ≥ rows.length` makes the recursion structural; the loop consumes
at least one row per iteration, so the fuel never runs out. -/
def ingestGo (maxQueryLen : Int) (stem : String) :
    Nat → List String → List String × Bool
  | _, [] => ([], false)
  | 0, _ :: _ => ([], false)
  | f + 1, v :: rest =>
    let r := fillStmt (maxQueryLen - (stem.length : Int)) stem (v :: rest)
    if r.2.length = (v :: rest).length then ([], true)
    else
      let rec2 := ingestGo maxQueryLen stem f r.2
      (dropLastStr r.1 :: rec2.1, rec2.2)

/-- `_do_ingest` (afwTableSqlFormatter.py:528-564): encode every row,
pack greedily into statements bounded by `maxQueryLen`.  (`conn.commit`
at line 564 runs only when the error flag is `false`.) -/
def do_ingest (maxQueryLen : Int) (allowReplace : Bool) (tableName : String)
    (columnNames : List String) (fmts : List FieldFormatterE)
    (cat : List (List (Option FieldVal))) : List String × Bool :=
  ingestGo maxQueryLen (sqlStem allowReplace tableName columnNames)
    cat.length (cat.map (encodeRow fmts))

/-! ### Rename protocol `_rename_table` and ingest sequencing `_ingest`
(afwTableSqlFormatter.py:619-636 and 459-498).  The SQL traffic is
abstracted as a trace of `DbOp`s; the database's reaction to each
`RENAME TABLE` attempt is an environment `Nat → RenameOutcome`. -/

inductive DbOp
  | createTable (name : String)
  | createView (viewName tableName : String)
  | insertStmt (sql : String)
  | commitOp
  | renameOp (fromName toName : String)
  | dropOp (name : String)
deriving DecidableEq

/-- Reaction of the server to one `RENAME TABLE` execution:
success, `MYSQL_ER_TABLE_EXISTS_ERROR` (1050), or an
`OperationalError` with another code (which line 630-632 silently
swallows without dropping). -/
inductive RenameOutcome
  | success
  | tableExists
  | otherOpError
deriving DecidableEq

/-- Terminal state of `_rename_table`: the rename succeeded, or the
retry budget was exhausted and only `log.warn` ran (lines 633-636). -/
inductive RenameResult
  | renamed
  | gaveUpWarn
deriving DecidableEq

/-- The `for i in range(num_tries)` loop of `_rename_table`
(afwTableSqlFormatter.py:624-632), `num_tries = 3`: execute
`RENAME TABLE`; on success return; on error 1050 execute
`DROP TABLE to_name` and retry; on another operational error just
retry.  `i` is the attempt index, the second argument the remaining
tries. -/
def renameAttempts (env : Nat → RenameOutcome) (fromName toName : String) :
    Nat → Nat → List DbOp × RenameResult
  | _, 0 => ([], .gaveUpWarn)
  | i, n + 1 =>
    match env i with
    | .success => ([.renameOp fromName toName], .renamed)
    | .tableExists =>
      let r := renameAttempts env fromName toName (i + 1) n
      (.renameOp fromName toName :: .dropOp toName :: r.1, r.2)
    | .otherOpError =>
      let r := renameAttempts env fromName toName (i + 1) n
      (.renameOp fromName toName :: r.1, r.2)

/-- `_rename_table` (afwTableSqlFormatter.py:619-636): check both names
with `_testSqlIsClean`, then run the bounded retry loop. -/
def rename_table (env : Nat → RenameOutcome) (fromName toName : String) :
    Except String (List DbOp × RenameResult) := do
  _ ← testSqlIsClean fromName
  _ ← testSqlIsClean toName
  pure (renameAttempts env fromName toName 0 3)

/-- The statement sequence issued by `_ingest`
(afwTableSqlFormatter.py:477-498): quote the destination (and view)
names, `_create_table` the staging table, then — if a view name was
supplied — `_create_view(conn, tempTableName, view_name, …)` against
the staging table, then `_do_ingest` into the staging table (committing
on success), then `_rename_table` staging → destination.  On a
`_do_ingest` error the exception propagates: no commit and no rename. -/
def ingest_ops (tempName tableName : String) (viewName : Option String)
    (maxQueryLen : Int) (allowReplace : Bool) (columnNames : List String)
    (fmts : List FieldFormatterE) (cat : List (List (Option FieldVal)))
    (renv : Nat → RenameOutcome) : List DbOp :=
  let tn := quote_mysql_identifier tableName
  let r := do_ingest maxQueryLen allowReplace tempName columnNames fmts cat
  [.createTable tempName] ++
    (match viewName with
     | some v => [.createView (quote_mysql_identifier v) tempName]
     | none => []) ++
    r.1.map .insertStmt ++
    (if r.2 then []
     else .commitOp :: (renameAttempts renv tempName tn 0 3).1)

/-! ### Retrieval type map `_egest_getType`
(afwTableSqlFormatter.py:405-457).  A pep-249 typecode is embedded by
the outcomes of the thirteen `==` comparisons the function performs, in
source order; `MySQLdb.Date`/`Time`/`Timestamp`/`…FromTicks`/`Binary`
are constructor objects and `STRING`/`BINARY`/`NUMBER`/`DATETIME`/
`ROWID`/`SQL` are the module's type objects. -/

structure TypecodeCmp where
  eqDate : Bool
  eqTime : Bool
  eqTimestamp : Bool
  eqDateFromTicks : Bool
  eqTimeFromTicks : Bool
  eqTimestampFromTicks : Bool
  eqBinaryCons : Bool
  eqSTRING : Bool
  eqBINARY : Bool
  eqNUMBER : Bool
  eqDATETIME : Bool
  eqROWID : Bool
  eqSQL : Bool
deriving DecidableEq

/-- The Python types `_egest_getType` can return. -/
inductive PyType
  | floatT
deriving DecidableEq

/-- `_egest_getType` (afwTableSqlFormatter.py:405-457): the `if/elif`
chain in source order; `.error ()` is `raise NotImplementedError()`,
`.ok none` is the implicit `return None` of a Python function that
falls off the end. -/
def egest_getType (tc : TypecodeCmp) : Except Unit (Option PyType) :=
  if tc.eqDate then .error ()
  else if tc.eqTime then .error ()
  else if tc.eqTimestamp then .error ()
  else if tc.eqDateFromTicks then .error ()
  else if tc.eqTimeFromTicks then .error ()
  else if tc.eqTimestampFromTicks then .error ()
  else if tc.eqBinaryCons then .error ()
  else if tc.eqSTRING then .error ()
  else if tc.eqBINARY then .error ()
  else if tc.eqNUMBER then .ok (some .floatT)
  else if tc.eqDATETIME then .error ()
  else if tc.eqROWID then .error ()
  else if tc.eqSQL then .error ()
  else .ok none

/-- The all-comparisons-false typecode (nothing in the chain
matches). -/
def unmatchedTc : TypecodeCmp :=
  ⟨false, false, false, false, false, false, false,
   false, false, false, false, false, false⟩

/-- A typecode whose first successful comparison in the chain is the
`MySQLdb.NUMBER == typecode` one. -/
def numberFirst (tc : TypecodeCmp) : Bool :=
  !tc.eqDate && !tc.eqTime && !tc.eqTimestamp && !tc.eqDateFromTicks &&
    !tc.eqTimeFromTicks && !tc.eqTimestampFromTicks && !tc.eqBinaryCons &&
    !tc.eqSTRING && !tc.eqBINARY && tc.eqNUMBER

/-- A typecode matching none of the thirteen comparisons. -/
def matchesNothing (tc : TypecodeCmp) : Bool :=
  !tc.eqDate && !tc.eqTime && !tc.eqTimestamp && !tc.eqDateFromTicks &&
    !tc.eqTimeFromTicks && !tc.eqTimestampFromTicks && !tc.eqBinaryCons &&
    !tc.eqSTRING && !tc.eqBINARY && !tc.eqNUMBER && !tc.eqDATETIME &&
    !tc.eqROWID && !tc.eqSQL

end DafFmtMysql

namespace DafFmtMysql

/-- C8: `canonicalize_field_name` is idempotent: canonicalizing an
already-canonicalized field name changes nothing. -/
theorem canonicalize_idempotent (x : String) :
    canonicalize_field_name (canonicalize_field_name x) =
      canonicalize_field_name x := by
  unfold canonicalize_field_name
  apply congrArg
  simp only [List.map_map]
  apply List.map_congr_left
  intro c _
  by_cases h : isWordChar c = true
  · simp [Function.comp, h]
  · have h2 : isWordChar '_' = true := by decide
    simp [Function.comp, h, h2]

/-- C2 (code_bug evidence): the collision check of `_create_table` keys
on the raw field names lower-cased, never canonicalizing, so the schema
`["a.b", "a-b"]` — whose two names both canonicalize to the SQL column
name `"a_b"` — raises nothing, and the `CREATE TABLE` DDL with two
identically named columns is issued. -/
theorem create_table_misses_canonical_clash :
    create_table_raises ["a.b", "a-b"] = false ∧
      canonicalize_field_name "a.b" = canonicalize_field_name "a-b" ∧
      canonicalize_field_name "a.b" = "a_b" := by
  refine ⟨by decide, by decide, by decide⟩

/-- C3 (counterexample): the 32-bit-float formatter does not render
finite values with 7 significant digits; at the float-representable
input `123456792` it produces the literal `"123456792"`, which shows 9
significant digits. -/
theorem float_formatter_not_seven_digits :
    format_value (field_formatters .F)
        (some (.floatV (.finite (123456792 : ℚ)))) = "123456792" ∧
      specSigDigits (format_value (field_formatters .F)
        (some (.floatV (.finite (123456792 : ℚ))))) = 9 ∧
      specSigDigits (format_value (field_formatters .F)
        (some (.floatV (.finite (123456792 : ℚ))))) ≠ 7 := by
  refine ⟨by decide, by decide, by decide⟩

/-- C3 (amended): the float formatter renders every finite value with
the 9-significant-digit general format `{:.9g}`, and the double and
angle formatters with the 17-significant-digit format `{:.17g}`;
concretely, a value needing the full precision is rendered with 9
(resp. 17) significant digits. -/
theorem numeric_formatter_precisions :
    (∀ q : ℚ, format_value (field_formatters .F)
        (some (.floatV (.finite q))) = gRender 9 q) ∧
      (∀ q : ℚ, format_value (field_formatters .D)
        (some (.floatV (.finite q))) = gRender 17 q) ∧
      (∀ q : ℚ, format_value (field_formatters .Angle)
        (some (.angleV (.finite q))) = gRender 17 q) ∧
      specSigDigits (format_value (field_formatters .F)
        (some (.floatV (.finite (123456792 : ℚ))))) = 9 ∧
      format_value (field_formatters .D)
        (some (.floatV (.finite (10000000000000002 : ℚ)))) =
          "10000000000000002" ∧
      specSigDigits (format_value (field_formatters .D)
        (some (.floatV (.finite (10000000000000002 : ℚ))))) = 17 := by
  refine ⟨fun q => rfl, fun q => rfl, fun q => rfl,
    by decide, by decide, by decide⟩

/-- C6: every registered formatter maps the null marker to `"NULL"`
(the conversion happens in `FieldFormatter.format_value`, before any
type-specific callable runs), and the float, double and angle
formatters also map every NaN or infinite value to `"NULL"`. -/
theorem formatters_null_and_nonfinite :
    (∀ t : FieldType, format_value (field_formatters t) none = "NULL") ∧
      (∀ v : FloatV, isNanOrInf v = true →
        format_value (field_formatters .F) (some (.floatV v)) = "NULL" ∧
        format_value (field_formatters .D) (some (.floatV v)) = "NULL" ∧
        format_value (field_formatters .Angle) (some (.angleV v)) = "NULL") := by
  constructor
  · intro t
    cases t <;> rfl
  · intro v h
    cases v with
    | finite q => simp [isNanOrInf] at h
    | nan => exact ⟨rfl, rfl, rfl⟩
    | inf => exact ⟨rfl, rfl, rfl⟩
    | neginf => exact ⟨rfl, rfl, rfl⟩

/-- Witness for the C6 theorem at the concrete non-finite input
`FloatV.nan` (and the `U` formatter for the null-marker part). -/
theorem formatters_null_and_nonfinite_witness :
    format_value (field_formatters .U) none = "NULL" ∧
      format_value (field_formatters .F) (some (.floatV .nan)) = "NULL" := by
  exact ⟨formatters_null_and_nonfinite.1 .U,
    (formatters_null_and_nonfinite.2 .nan (by decide)).1⟩

/-- C9: the storage layer's `identifierQuote` raises on every input
containing a back-tick and back-tick-wraps every other input, while the
formatter layer's `quote_mysql_identifier` escapes an embedded
back-tick by doubling it instead of rejecting. -/
theorem identifier_quote_contrast :
    (∀ s : String, strContains s '`' = true →
        ∃ msg, identifierQuote s = .error msg) ∧
      (∀ s : String, strContains s '`' = false →
        identifierQuote s = .ok ("`" ++ s ++ "`")) ∧
      quote_mysql_identifier "a`b" = "`a``b`" := by
  refine ⟨?_, ?_, by decide⟩
  · intro s h
    exact ⟨"Illegal ` character in field.", by simp [identifierQuote, h]⟩
  · intro s h
    simp [identifierQuote, h]

/-- Witness for the C9 theorem at the concrete inputs `"a`b"` (rejected
by `identifierQuote`) and `"ab"` (wrapped). -/
theorem identifier_quote_contrast_witness :
    (∃ msg, identifierQuote "a`b" = .error msg) ∧
      identifierQuote "ab" = .ok ("`" ++ "ab" ++ "`") := by
  exact ⟨identifier_quote_contrast.1 "a`b" (by decide),
    identifier_quote_contrast.2.1 "ab" (by decide)⟩

/-- C4 (counterexample): with the rule list
`[("old_", "new_"), ("old_x", "new_y")]` the alias `"old_x"` IS in the
alias set of `"new_y"` (the exact rule `("old_x", "new_y")` itself
produces it) and is NOT in the alias set of `"new_x"` (the longer rule
`"old_x"` shadows the candidate produced by `("old_", "new_")`),
contrary to the claimed exclusion direction. -/
theorem alias_exclusion_reversed :
    (aliases_for "new_y" [("old_", "new_"), ("old_x", "new_y")]).contains
        "old_x" = true ∧
      (aliases_for "new_x" [("old_", "new_"), ("old_x", "new_y")]).contains
        "old_x" = false := by
  refine ⟨by decide, by decide⟩

/-- C4 (amended): with the single rule `[("old_", "new_")]` the alias
set of `"new_x"` is exactly `{"old_x"}`; adding the longer rule
`("old_x", "new_y")` makes it take precedence, so `"old_x"` is excluded
from the alias set of `"new_x"` (which becomes empty) and appears only
in the alias set of `"new_y"` (which is `{"old_y", "old_x"}`). -/
theorem alias_rule_precedence :
    aliases_for "new_x" [("old_", "new_")] = ["old_x"] ∧
      aliases_for "new_y" [("old_", "new_"), ("old_x", "new_y")] =
        ["old_y", "old_x"] ∧
      aliases_for "new_x" [("old_", "new_"), ("old_x", "new_y")] = [] := by
  refine ⟨by decide, by decide, by decide⟩

/-- Every operation issued by the retry loop of `_rename_table` is
either the `RENAME TABLE from TO to` attempt or a
`DROP TABLE to`; in particular the staging table (`from`) is never
dropped. -/
theorem renameAttempts_ops_shape (env : Nat → RenameOutcome)
    (f t : String) :
    ∀ (n i : Nat) (op : DbOp), op ∈ (renameAttempts env f t i n).1 →
      op = .renameOp f t ∨ op = .dropOp t := by
  intro n
  induction n with
  | zero => intro i op h; simp [renameAttempts] at h
  | succ n ih =>
    intro i op h
    rw [renameAttempts] at h
    cases henv : env i <;> rw [henv] at h
    · simp only [List.mem_singleton] at h
      exact Or.inl h
    · simp only [List.mem_cons] at h
      rcases h with h | h | h
      · exact Or.inl h
      · exact Or.inr h
      · exact ih (i + 1) op h
    · simp only [List.mem_cons] at h
      rcases h with h | h
      · exact Or.inl h
      · exact ih (i + 1) op h

/-- C7: if the destination name is free the first `RENAME TABLE`
attempt succeeds and is the only statement issued; if it is taken and
freed by the first drop, one drop-and-retry cycle suffices; if every
attempt hits `MYSQL_ER_TABLE_EXISTS_ERROR`, exactly 3 drop-and-retry
cycles run and the function returns the warned (`gaveUpWarn`)
state — an ordinary return, not an exception — having never dropped or
renamed away the staging table, which stays in place under its
temporary name. -/
theorem rename_retry_protocol (env : Nat → RenameOutcome) (f t : String)
    (hf : strContains f ';' = false) (ht : strContains t ';' = false) :
    (env 0 = .success →
      rename_table env f t = .ok ([.renameOp f t], .renamed)) ∧
      (env 0 = .tableExists → env 1 = .success →
        rename_table env f t =
          .ok ([.renameOp f t, .dropOp t, .renameOp f t], .renamed)) ∧
      ((∀ i, env i = .tableExists) →
        rename_table env f t =
          .ok ([.renameOp f t, .dropOp t, .renameOp f t, .dropOp t,
                .renameOp f t, .dropOp t], .gaveUpWarn) ∧
        (f ≠ t →
          DbOp.dropOp f ∉ [DbOp.renameOp f t, DbOp.dropOp t,
            DbOp.renameOp f t, DbOp.dropOp t, DbOp.renameOp f t,
            DbOp.dropOp t])) := by
  refine ⟨?_, ?_, ?_⟩
  · intro h0
    simp [rename_table, testSqlIsClean, hf, ht, renameAttempts, h0]
    rfl
  · intro h0 h1
    simp [rename_table, testSqlIsClean, hf, ht, renameAttempts, h0, h1]
    rfl
  · intro h
    refine ⟨?_, ?_⟩
    · simp [rename_table, testSqlIsClean, hf, ht, renameAttempts,
        h 0, h 1, h 2]
      rfl
    · intro hft
      simp only [List.mem_cons, List.not_mem_nil, or_false]
      push_neg
      refine ⟨?_, ?_, ?_, ?_, ?_, ?_⟩ <;> intro hc <;>
        first
          | exact DbOp.noConfusion hc
          | exact hft (DbOp.dropOp.inj hc)

/-- Witness for the C7 theorem: the always-free and always-occupied
environments at the concrete names `"tmp"` and `"dst"`. -/
theorem rename_retry_protocol_witness :
    rename_table (fun _ => .success) "tmp" "dst" =
        .ok ([.renameOp "tmp" "dst"], .renamed) ∧
      rename_table (fun _ => .tableExists) "tmp" "dst" =
        .ok ([.renameOp "tmp" "dst", .dropOp "dst", .renameOp "tmp" "dst",
              .dropOp "dst", .renameOp "tmp" "dst", .dropOp "dst"],
             .gaveUpWarn) := by
  exact ⟨(rename_retry_protocol (fun _ => .success) "tmp" "dst"
      (by decide) (by decide)).1 rfl,
    ((rename_retry_protocol (fun _ => .tableExists) "tmp" "dst"
      (by decide) (by decide)).2.2 (fun _ => rfl)).1⟩

/-- C5 (counterexample): at a concrete ingestion with a view name, the
statement trace of `_ingest` creates the view against the STAGING table
name, before the inserts, the commit and the rename; the view never
references the quoted destination name. -/
theorem view_created_against_staging :
    ingest_ops "tmpA" "dest" (some "v") 100 false ["a"]
        [field_formatters .Flag] [[some (.flagV true)]]
        (fun _ => .success) =
      [.createTable "tmpA", .createView "`v`" "tmpA",
       .insertStmt "INSERT INTO tmpA (a) VALUES (1)", .commitOp,
       .renameOp "tmpA" "`dest`"] ∧
      (ingest_ops "tmpA" "dest" (some "v") 100 false ["a"]
        [field_formatters .Flag] [[some (.flagV true)]]
        (fun _ => .success)).contains (.createView "`v`" "tmpA") = true ∧
      (ingest_ops "tmpA" "dest" (some "v") 100 false ["a"]
        [field_formatters .Flag] [[some (.flagV true)]]
        (fun _ => .success)).contains (.createView "`v`" "`dest`") = false := by
  refine ⟨rfl, by decide, by decide⟩

/-- C5 (amended): when a view name is supplied, `_ingest` creates the
view immediately after creating the staging table — before any insert,
the commit and the rename — and every view creation in the trace
references the staging table name, never the destination name. -/
theorem ingest_view_sequencing (tempName tableName v : String)
    (mql : Int) (ar : Bool) (cns : List String)
    (fmts : List FieldFormatterE) (cat : List (List (Option FieldVal)))
    (renv : Nat → RenameOutcome) :
    (ingest_ops tempName tableName (some v) mql ar cns fmts cat renv).take 2 =
        [.createTable tempName,
         .createView (quote_mysql_identifier v) tempName] ∧
      (∀ w t2 : String,
        DbOp.createView w t2 ∈
            ingest_ops tempName tableName (some v) mql ar cns fmts cat renv →
          w = quote_mysql_identifier v ∧ t2 = tempName) := by
  constructor
  · rfl
  · intro w t2 hmem
    simp only [ingest_ops, List.cons_append, List.nil_append,
      List.mem_cons, List.mem_append, List.mem_map] at hmem
    rcases hmem with h | h | h | h
    · exact DbOp.noConfusion h
    · exact ⟨(DbOp.createView.inj h).1, (DbOp.createView.inj h).2⟩
    · obtain ⟨s, _, hs⟩ := h
      exact DbOp.noConfusion hs
    · by_cases herr : (do_ingest mql ar tempName cns fmts cat).2
      · rw [if_pos herr] at h
        simp at h
      · rw [if_neg herr] at h
        simp only [List.mem_cons] at h
        rcases h with h | h
        · exact DbOp.noConfusion h
        · rcases renameAttempts_ops_shape renv tempName
            (quote_mysql_identifier tableName) 3 0 _ h with h2 | h2 <;>
            exact DbOp.noConfusion h2

/-- Witness for the C5 amended theorem at a concrete ingestion. -/
theorem ingest_view_sequencing_witness :
    (ingest_ops "tmpA" "dest" (some "v") 100 false ["a"]
        [field_formatters .Flag] [[some (.flagV true)]]
        (fun _ => .success)).take 2 =
      [.createTable "tmpA", .createView "`v`" "tmpA"] ∧
      ("`v`" = quote_mysql_identifier "v" ∧ "tmpA" = "tmpA") := by
  exact ⟨(ingest_view_sequencing "tmpA" "dest" "v" 100 false ["a"]
      [field_formatters .Flag] [[some (.flagV true)]] (fun _ => .success)).1,
    (ingest_view_sequencing "tmpA" "dest" "v" 100 false ["a"]
      [field_formatters .Flag] [[some (.flagV true)]]
      (fun _ => .success)).2 "`v`" "tmpA" (by decide)⟩

/-- C10: `_egest_getType` returns `float` for a typecode whose first
matching comparison is `NUMBER`, raises `NotImplementedError` for the
date/time/timestamp (`DATETIME`), string, binary and rowid typecodes it
lists, and for a typecode matching none of its comparisons falls off
the `if/elif` chain and silently returns `None` instead of raising. -/
theorem egest_type_dispatch :
    (∀ tc : TypecodeCmp, numberFirst tc = true →
        egest_getType tc = .ok (some .floatT)) ∧
      egest_getType { unmatchedTc with eqDATETIME := true } = .error () ∧
      egest_getType { unmatchedTc with eqSTRING := true } = .error () ∧
      egest_getType { unmatchedTc with eqBINARY := true } = .error () ∧
      egest_getType { unmatchedTc with eqROWID := true } = .error () ∧
      (∀ tc : TypecodeCmp, matchesNothing tc = true →
        egest_getType tc = .ok none) := by
  refine ⟨?_, rfl, rfl, rfl, rfl, ?_⟩
  · intro tc h
    simp only [numberFirst, Bool.and_eq_true, Bool.not_eq_true'] at h
    obtain ⟨⟨⟨⟨⟨⟨⟨⟨⟨h1, h2⟩, h3⟩, h4⟩, h5⟩, h6⟩, h7⟩, h8⟩, h9⟩, h10⟩ := h
    simp [egest_getType, h1, h2, h3, h4, h5, h6, h7, h8, h9, h10]
  · intro tc h
    simp only [matchesNothing, Bool.and_eq_true, Bool.not_eq_true'] at h
    obtain ⟨⟨⟨⟨⟨⟨⟨⟨⟨⟨⟨⟨h1, h2⟩, h3⟩, h4⟩, h5⟩, h6⟩, h7⟩, h8⟩, h9⟩, h10⟩,
      h11⟩, h12⟩, h13⟩ := h
    simp [egest_getType, h1, h2, h3, h4, h5, h6, h7, h8, h9, h10, h11,
      h12, h13]

/-- Witness for the C10 theorem: the NUMBER-only typecode and the
unmatched typecode. -/
theorem egest_type_dispatch_witness :
    egest_getType { unmatchedTc with eqNUMBER := true } =
        .ok (some .floatT) ∧
      egest_getType unmatchedTc = .ok none := by
  exact ⟨egest_type_dispatch.1 { unmatchedTc with eqNUMBER := true }
      (by decide),
    egest_type_dispatch.2.2.2.2.2 unmatchedTc (by decide)⟩


/-- `fillStmt` consumes an initial segment of the rows and appends its
literals, in order, to the accumulated statement: no row is split. -/
theorem fillStmt_split (rows : List String) : ∀ (m : Int) (sql : String),
    ∃ t, t ≤ rows.length ∧
      fillStmt m sql rows = (sql ++ strJoin (rows.take t), rows.drop t) := by
  induction rows with
  | nil =>
    intro m sql
    exact ⟨0, Nat.le_refl 0, by simp [fillStmt, strJoin]⟩
  | cons v rest ih =>
    intro m sql
    by_cases h : m - (v.length : Int) < 0
    · refine ⟨0, Nat.zero_le _, ?_⟩
      simp [fillStmt, h, strJoin]
    · obtain ⟨t, ht, heq⟩ := ih (m - (v.length : Int)) (sql ++ v)
      refine ⟨t + 1, by simpa using ht, ?_⟩
      simp only [fillStmt, h, if_false, List.take_succ_cons,
        List.drop_succ_cons, heq, strJoin]
      rw [String.append_assoc]

/-- With a negative remaining budget `fillStmt` consumes nothing. -/
theorem fillStmt_neg (m : Int) (hm : m < 0) (sql : String)
    (rows : List String) : fillStmt m sql rows = (sql, rows) := by
  cases rows with
  | nil => rfl
  | cons v rest =>
    have h : m - (v.length : Int) < 0 := by omega
    simp [fillStmt, h]

/-- When every row literal is exactly `K` bytes and the budget is the
natural number `b`, `fillStmt` consumes exactly `min rows.length (b / K)`
rows. -/
theorem fillStmt_drop_const (K : Nat) (hK : 0 < K) :
    ∀ (rows : List String) (b : Nat) (sql : String),
      (∀ v ∈ rows, v.length = K) →
      (fillStmt (b : Int) sql rows).2 =
        rows.drop (min rows.length (b / K)) := by
  intro rows
  induction rows with
  | nil => intro b sql _; simp [fillStmt]
  | cons v rest ih =>
    intro b sql hall
    have hv : v.length = K := hall v (List.mem_cons_self v rest)
    by_cases hbK : K ≤ b
    · have hcast : (b : Int) - (v.length : Int) = ((b - K : Nat) : Int) := by
        rw [hv]; omega
      have hnn2 : ¬ (((b - K : Nat) : Int) < 0) := by omega
      have hrec := ih (b - K) (sql ++ v)
        (fun w hw => hall w (List.mem_cons_of_mem v hw))
      have hdiv : b / K = (b - K) / K + 1 := Nat.div_eq_sub_div hK hbK
      simp only [fillStmt, hcast, hnn2, if_false, hrec, List.length_cons,
        hdiv, Nat.succ_min_succ, List.drop_succ_cons]
    · have hneg : (b : Int) - (v.length : Int) < 0 := by
        rw [hv]; omega
      have hdiv : b / K = 0 := Nat.div_eq_of_lt (by omega)
      simp [fillStmt, hneg, hdiv]

/-- A single row larger than the whole remaining budget makes the outer
loop of `_do_ingest` fail with `RuntimeError` before executing any
statement. -/
theorem ingestGo_oversize (B : Int) (stem : String) (K : Nat)
    (rows : List String) (hall : ∀ v ∈ rows, v.length = K)
    (hbig : B - (stem.length : Int) < K) (hne : rows ≠ []) (f : Nat) :
    ingestGo B stem (f + 1) rows = ([], true) := by
  cases rows with
  | nil => exact absurd rfl hne
  | cons v rest =>
    have hv : v.length = K := hall v (List.mem_cons_self v rest)
    have hneg : B - (stem.length : Int) - (v.length : Int) < 0 := by
      rw [hv]; omega
    simp [ingestGo, fillStmt, hneg]

/-- When every row literal is exactly `K` bytes and at least one row
fits under the budget, the outer loop of `_do_ingest` never errors and
emits exactly `⌈rows.length / ((B - stemLen) / K)⌉` statements. -/
theorem ingestGo_count (B : Int) (stem : String) (K : Nat) (hK : 0 < K)
    (hfit : (K : Int) ≤ B - (stem.length : Int)) :
    ∀ (fuel : Nat) (rows : List String), rows.length ≤ fuel →
      (∀ v ∈ rows, v.length = K) →
      (ingestGo B stem fuel rows).2 = false ∧
      (ingestGo B stem fuel rows).1.length =
        (rows.length + (B - (stem.length : Int)).toNat / K - 1) /
          ((B - (stem.length : Int)).toNat / K) := by
  have hb0 : (0 : Int) ≤ B - (stem.length : Int) := by omega
  set b := (B - (stem.length : Int)).toNat with hbdef
  have hbeq : B - (stem.length : Int) = (b : Int) := by
    rw [hbdef, Int.toNat_of_nonneg hb0]
  have hKb : K ≤ b := by omega
  set q := b / K with hqdef
  have hq : 1 ≤ q := (Nat.one_le_div_iff hK).mpr hKb
  intro fuel
  induction fuel with
  | zero =>
    intro rows hlen _
    have h0 : rows = [] := List.eq_nil_of_length_eq_zero (Nat.le_zero.mp hlen)
    subst h0
    refine ⟨rfl, ?_⟩
    simp only [ingestGo, List.length_nil]
    rw [Nat.div_eq_of_lt (by omega)]
  | succ f ihf =>
    intro rows hlen hall
    cases rows with
    | nil =>
      refine ⟨rfl, ?_⟩
      simp only [ingestGo, List.length_nil]
      rw [Nat.div_eq_of_lt (by omega)]
    | cons v rest =>
      have hdrop : (fillStmt (B - (stem.length : Int)) stem (v :: rest)).2 =
          (v :: rest).drop (min (rest.length + 1) q) := by
        rw [hbeq]
        have h := fillStmt_drop_const K hK (v :: rest) b stem hall
        simpa using h
      have htmin : 1 ≤ min (rest.length + 1) q :=
        le_min (by omega) hq
      have hlen2 : ((v :: rest).drop (min (rest.length + 1) q)).length =
          rest.length + 1 - min (rest.length + 1) q := by
        rw [List.length_drop]; simp
      have hcond : ¬ (((v :: rest).drop (min (rest.length + 1) q)).length =
          (v :: rest).length) := by
        rw [hlen2]
        simp only [List.length_cons]
        omega
      have hrec := ihf ((v :: rest).drop (min (rest.length + 1) q))
        (by
          rw [hlen2]
          simp only [List.length_cons] at hlen
          omega)
        (fun w hw => hall w (List.drop_subset _ _ hw))
      constructor
      · simp only [ingestGo, hdrop]
        rw [if_neg hcond]
        exact hrec.1
      · simp only [ingestGo, hdrop]
        rw [if_neg hcond]
        simp only [List.length_cons, hrec.2, hlen2]
        rcases Nat.le_total (rest.length + 1) q with hNq | hqN
        · have hmin : min (rest.length + 1) q = rest.length + 1 :=
            min_eq_left hNq
          rw [hmin, Nat.sub_self,
            Nat.div_eq_of_lt (show 0 + q - 1 < q by omega),
            Nat.div_eq_of_lt_le
              (show 1 * q ≤ rest.length + 1 + q - 1 by omega)
              (show rest.length + 1 + q - 1 < (1 + 1) * q by omega)]
        · have hmin : min (rest.length + 1) q = q := min_eq_right hqN
          have h1 : rest.length + 1 - q + q - 1 = rest.length := by omega
          have h2 : rest.length + 1 + q - 1 = rest.length + q := by omega
          rw [hmin, h1, h2, Nat.add_div_right _ (by omega)]

/-- Statement/row alignment of the outer loop of `_do_ingest`: the rows
split into consecutive non-empty groups, one per emitted statement, and
each statement is exactly the stem followed by its group's literals in
order (with the trailing separator stripped); when the loop ends
without error and the fuel covers the rows, no row is left over. -/
theorem ingestGo_partition (B : Int) (stem : String) :
    ∀ (fuel : Nat) (rows : List String),
      ∃ (groups : List (List String)) (rest : List String),
        rows = groups.flatten ++ rest ∧
        (∀ g ∈ groups, g ≠ []) ∧
        (ingestGo B stem fuel rows).1 =
          groups.map (fun g => dropLastStr (stem ++ strJoin g)) ∧
        (rows.length ≤ fuel → (ingestGo B stem fuel rows).2 = false →
          rest = []) := by
  intro fuel
  induction fuel with
  | zero =>
    intro rows
    cases rows with
    | nil => exact ⟨[], [], rfl, by simp, rfl, fun _ _ => rfl⟩
    | cons v rest =>
      refine ⟨[], v :: rest, rfl, by simp, rfl, ?_⟩
      intro hlen _
      simp at hlen
  | succ f ihf =>
    intro rows
    cases rows with
    | nil => exact ⟨[], [], rfl, by simp, rfl, fun _ _ => rfl⟩
    | cons v rest =>
      obtain ⟨t, ht, heq⟩ :=
        fillStmt_split (v :: rest) (B - (stem.length : Int)) stem
      by_cases hstop : ((v :: rest).drop t).length = (v :: rest).length
      · refine ⟨[], v :: rest, rfl, by simp, ?_, ?_⟩
        · simp only [ingestGo, heq]
          rw [if_pos hstop]
          rfl
        · intro _ herr
          exfalso
          simp only [ingestGo, heq] at herr
          rw [if_pos hstop] at herr
          simp at herr
      · have ht1 : 1 ≤ t := by
          by_contra hc
          push_neg at hc
          interval_cases t
          exact hstop rfl
        obtain ⟨groups, rest2, hsplit, hne, hmap, hdone⟩ :=
          ihf ((v :: rest).drop t)
        refine ⟨(v :: rest).take t :: groups, rest2, ?_, ?_, ?_, ?_⟩
        · rw [List.flatten_cons, List.append_assoc, ← hsplit,
            List.take_append_drop]
        · intro g hg
          rcases List.mem_cons.mp hg with hg | hg
          · subst hg
            cases t with
            | zero => omega
            | succ t2 => simp
          · exact hne g hg
        · simp only [ingestGo, heq]
          rw [if_neg hstop]
          simp only [List.map_cons, hmap]
        · intro hlen herr
          simp only [ingestGo, heq] at herr
          rw [if_neg hstop] at herr
          refine hdone ?_ herr
          have hdl : ((v :: rest).drop t).length =
              (v :: rest).length - t := List.length_drop t (v :: rest)
          simp only [List.length_cons] at hlen hdl ⊢
          omega

/-- C1: for a catalog whose every row encodes (separator included) to
exactly `K` bytes, with byte budget `B` and statement stem length
`prefixLen`: when one row fits (`K ≤ B - prefixLen`), `_do_ingest`
raises nothing and executes exactly
`⌈N / ⌊(B - prefixLen) / K⌋⌉` statements, each consisting of the stem
followed by a whole number of consecutive row literals (no row split
across statements); when a single row exceeds `B - prefixLen`, it
raises the capacity `RuntimeError` having executed zero statements. -/
theorem batch_statement_packing (B : Int) (ar : Bool) (tn : String)
    (cns : List String) (fmts : List FieldFormatterE)
    (cat : List (List (Option FieldVal))) (K : Nat) (hK : 0 < K)
    (hall : ∀ row ∈ cat, (encodeRow fmts row).length = K) :
    ((K : Int) ≤ B - ((sqlStem ar tn cns).length : Int) →
      (do_ingest B ar tn cns fmts cat).2 = false ∧
      (do_ingest B ar tn cns fmts cat).1.length =
        (cat.length + (B - ((sqlStem ar tn cns).length : Int)).toNat / K - 1) /
          ((B - ((sqlStem ar tn cns).length : Int)).toNat / K) ∧
      ∃ groups : List (List String),
        groups.flatten = cat.map (encodeRow fmts) ∧
        (∀ g ∈ groups, g ≠ []) ∧
        (do_ingest B ar tn cns fmts cat).1 =
          groups.map (fun g => dropLastStr (sqlStem ar tn cns ++ strJoin g))) ∧
    (B - ((sqlStem ar tn cns).length : Int) < K → cat ≠ [] →
      do_ingest B ar tn cns fmts cat = ([], true)) := by
  have hall2 : ∀ v ∈ cat.map (encodeRow fmts), v.length = K := by
    intro v hv
    obtain ⟨row, hrow, rfl⟩ := List.mem_map.mp hv
    exact hall row hrow
  have hlenmap : (cat.map (encodeRow fmts)).length = cat.length :=
    List.length_map cat (encodeRow fmts)
  constructor
  · intro hfit
    have hcnt := ingestGo_count B (sqlStem ar tn cns) K hK hfit cat.length
      (cat.map (encodeRow fmts)) (by omega) hall2
    refine ⟨hcnt.1, ?_, ?_⟩
    · rw [show do_ingest B ar tn cns fmts cat =
        ingestGo B (sqlStem ar tn cns) cat.length (cat.map (encodeRow fmts))
        from rfl]
      rw [hcnt.2, hlenmap]
    · obtain ⟨groups, rest2, hsplit, hne, hmap, hdone⟩ :=
        ingestGo_partition B (sqlStem ar tn cns) cat.length
          (cat.map (encodeRow fmts))
      have hrest : rest2 = [] := hdone (by omega) hcnt.1
      subst hrest
      refine ⟨groups, ?_, hne, hmap⟩
      rw [hsplit, List.append_nil]
  · intro hbig hne
    cases cat with
    | nil => exact absurd rfl hne
    | cons c cs =>
      exact ingestGo_oversize B (sqlStem ar tn cns) K
        ((c :: cs).map (encodeRow fmts)) hall2 hbig (by simp) cs.length

/-- Witness for the C1 theorem: five one-flag-column rows, each
encoding to the 4-byte literal `"(1),"`, stem
`"INSERT INTO t (a) VALUES "` of length 25, budget 33: two rows per
statement, hence `⌈5 / 2⌉ = 3` statements and no error. -/
theorem batch_statement_packing_witness :
    (do_ingest 33 false "t" ["a"] [field_formatters .Flag]
        [[some (.flagV true)], [some (.flagV true)], [some (.flagV true)],
         [some (.flagV true)], [some (.flagV true)]]).2 = false ∧
      (do_ingest 33 false "t" ["a"] [field_formatters .Flag]
        [[some (.flagV true)], [some (.flagV true)], [some (.flagV true)],
         [some (.flagV true)], [some (.flagV true)]]).1.length = 3 := by
  have h := (batch_statement_packing 33 false "t" ["a"]
    [field_formatters .Flag]
    [[some (.flagV true)], [some (.flagV true)], [some (.flagV true)],
     [some (.flagV true)], [some (.flagV true)]] 4 (by decide)
    (by decide)).1 (by decide)
  refine ⟨h.1, ?_⟩
  rw [h.2.1]
  decide

end DafFmtMysql
